import Mathlib

/-!
Verification of the snarkVM Varuna AHP prover round functions
(`src/algorithms/src/snark/varuna/ahp/prover/round_functions/mod.rs`):
`AHPForR1CS::init_prover`, `AHPForR1CS::apply_randomized_selector` and
`inner_product`, shallowly embedded over coefficient-list polynomials.
Components external to that file (the FFT evaluation-domain library, the
prover constraint-system sink, padding and admissibility checks) are
modelled from the specification and marked as such.
-/

set_option linter.unusedSectionVars false

set_option linter.unusedVariables false

section Definitions

variable {F : Type} [Field F] [DecidableEq F]

/-- Coefficient of a dense polynomial, represented as the list of its
coefficients in increasing degree order; indices beyond the list are 0. -/
def coeff (p : List F) (k : Nat) : F := p.getD k 0

/-- Pointwise sum of two coefficient lists. -/
def polyAdd : List F → List F → List F
  | [], q => q
  | p, [] => p
  | a :: p, b :: q => (a + b) :: polyAdd p q

/-- Pointwise difference of two coefficient lists. -/
def polySub : List F → List F → List F
  | p, [] => p
  | [], b :: q => (-b) :: polySub [] q
  | a :: p, b :: q => (a - b) :: polySub p q

/-- Canonical form of a coefficient list: trailing zero coefficients removed. -/
def trim : List F → List F
  | [] => []
  | a :: t =>
    match trim t with
    | [] => if a = 0 then [] else [a]
    | b :: t2 => a :: b :: t2

/-- The zero-polynomial test of the dense polynomial library:
true iff every stored coefficient is zero. -/
def isZero (p : List F) : Bool := p.all fun c => decide (c = 0)

/-- Sum of the coefficients of `p` at indices `i, i + n, i + 2n, ...`. -/
def sumStride (p : List F) (n i : Nat) : F :=
  ∑ j ∈ Finset.range (p.length + 1), coeff p (i + j * n)

/-- Modelled from the spec: quotient and remainder of division by the
vanishing polynomial `X^n - 1` of an FFT evaluation domain of size `n`
(the monic polynomial vanishing exactly on the n-th roots of unity). -/
def divByVanishing (n : Nat) (p : List F) : List F × List F :=
  ((List.range (p.length - n)).map fun i => sumStride p n (i + n),
   (List.range (min n p.length)).map fun i => sumStride p n i)

/-- Modelled from the spec: multiplication by the vanishing polynomial
`X^n - 1` of a domain of size `n`. -/
def mulByVanishing (n : Nat) (p : List F) : List F :=
  polySub (List.replicate n 0 ++ p) p

/-- Modelled from the spec: an FFT evaluation domain, exposing its
cardinality; its size cast into the field and the field inverse of its
size are derived from the cardinality. -/
structure EvalDomain where
  size : Nat
deriving DecidableEq

/-- Modelled from the spec: `divide_by_vanishing_poly` of the dense
polynomial library; undefined (none) exactly when the domain is degenerate. -/
def divideByVanishingPoly (p : List F) (d : EvalDomain) :
    Option (List F × List F) :=
  if d.size = 0 then none else some (divByVanishing d.size p)

/-- Modelled from the spec: `mul_by_vanishing_poly` of the dense
polynomial library. -/
def mulByVanishingPoly (p : List F) (d : EvalDomain) : List F :=
  mulByVanishing d.size p

/-- Outcome of running a fallible Rust function: a returned value, a
returned error, or a panic (assert! / unwrap / out-of-bounds index). -/
inductive RunOutcome (ε α : Type) where
  | ok (val : α)
  | err (e : ε)
  | panic
deriving DecidableEq

/-- The field multiplier `c_i · |H_i| · |H|⁻¹` used by both branches of
`apply_randomized_selector`. -/
def selectorMultiplier (combiner : F) (targetDomain srcDomain : EvalDomain) :
    F :=
  combiner * (srcDomain.size : F) * (targetDomain.size : F)⁻¹

/-- Shallow embedding of `AHPForR1CS::apply_randomized_selector`
(round_functions/mod.rs lines 174-222). -/
def applyRandomizedSelector (poly : List F) (combiner : F)
    (targetDomain srcDomain : EvalDomain) (remainderWitness : Bool) :
    RunOutcome Unit (List F × Option (List F)) :=
  if !remainderWitness then
    match divideByVanishingPoly poly srcDomain with
    | none => .err ()
    | some (hI, remainder) =>
      if isZero remainder then
        .ok (hI.map fun c => c * selectorMultiplier combiner targetDomain srcDomain,
             none)
      else .panic
  else
    let scaled := poly.map fun c =>
      c * selectorMultiplier combiner targetDomain srcDomain
    match divideByVanishingPoly scaled srcDomain with
    | none => .panic
    | some (hI, xgI) =>
      match divideByVanishingPoly (mulByVanishingPoly xgI targetDomain)
          srcDomain with
      | none => .panic
      | some (xgI2, remainder2) =>
        if isZero remainder2 then .ok (hI, some xgI2) else .panic

/-- The field with five elements, with structurally computable operations
(inverse by `a ↦ a³`), used for concrete test vectors. -/
def F5 : Type := Fin 5

instance : CommRing F5 := inferInstanceAs (CommRing (Fin 5))

instance : DecidableEq F5 := inferInstanceAs (DecidableEq (Fin 5))

instance (n : Nat) : OfNat F5 n := inferInstanceAs (OfNat (Fin 5) n)

instance : Fintype F5 := inferInstanceAs (Fintype (Fin 5))

instance : Inv F5 := ⟨fun a => a ^ 3⟩

instance : Field F5 :=
  { inferInstanceAs (CommRing F5), inferInstanceAs (Inv F5) with
    exists_pair_ne := ⟨0, 1, by decide⟩
    mul_inv_cancel := by decide
    inv_zero := by decide
    nnqsmul := _
    qsmul := _ }

/-- The circuit index metadata (`circuit.index_info`); per the spec's data
model it records the public and private variable counts separately. -/
structure CircuitInfo where
  numPublicVariables : Nat
  numPrivateVariables : Nat
  numConstraints : Nat
  numNonZeroA : Nat
  numNonZeroB : Nat
  numNonZeroC : Nat
deriving DecidableEq

/-- The recorded total variable count (`index_info.num_variables`):
public plus private, per the spec's data model. -/
def CircuitInfo.numVariables (ci : CircuitInfo) : Nat :=
  ci.numPublicVariables + ci.numPrivateVariables

/-- A circuit index: metadata plus the three sparse constraint matrices,
each a list of rows of (coefficient, column-index) pairs. -/
structure Circuit (F : Type) where
  indexInfo : CircuitInfo
  a : List (List (F × Nat))
  b : List (List (F × Nat))
  c : List (List (F × Nat))
deriving DecidableEq

/-- Modelled from the spec: the prover constraint-system sink after running
one instance (`prover::ConstraintSystem`); its realized variable counts are
the lengths of its vectors. -/
structure ConstraintSys (F : Type) where
  publicVariables : List F
  privateVariables : List F
  numConstraints : Nat
deriving DecidableEq

/-- Modelled from the spec: a constraint-generation capability, identified
with the result of running it into a fresh sink — either a synthesis
failure or the populated sink. -/
abbrev CInstance (F : Type) := Except Unit (ConstraintSys F)

/-- Per-instance result of `init_prover`:
`prover::Assignments(padded_public_variables, private_variables, z_a, z_b, z_c)`. -/
structure Assignments (F : Type) where
  publicVariables : List F
  privateVariables : List F
  zA : List F
  zB : List F
  zC : List F
deriving DecidableEq

/-- The error taxonomy of the builder (spec section 7). -/
inductive AHPError where
  | synthesisFailure
  | instanceDoesNotMatchIndex
  | inadmissiblePublicInput
deriving DecidableEq

/-- Modelled from the spec: the prover state, an ordered mapping from
circuit to the ordered list of its instances' Assignments. -/
structure ProverState (F : Type) where
  circuitsAndAssignments : List (Circuit F × List (Assignments F))
deriving DecidableEq

/-- A seeded entropy source: a deterministic stream of field elements and
a position. -/
structure RNG (F : Type) where
  stream : Nat → F
  pos : Nat

/-- Draw one field element (`F::rand(rng)`). -/
def RNG.next (r : RNG F) : F × RNG F := (r.stream r.pos, ⟨r.stream, r.pos + 1⟩)

/-- Phase 1 of `init_prover` for one circuit (lines 55-65): for each of its
instances in order, in ZK mode draw `a` then `b` and record
`some [a, b, a*b]`, otherwise record `none` and draw nothing. -/
def sampleOne (zk : Bool) : Nat → RNG F → List (Option (F × F × F)) × RNG F
  | 0, rng => ([], rng)
  | Nat.succ m, rng =>
    if zk then
      let (a, rng1) := rng.next
      let (b, rng2) := rng1.next
      let (rest, rng3) := sampleOne zk m rng2
      (some (a, b, a * b) :: rest, rng3)
    else
      let (rest, rng1) := sampleOne zk m rng
      (none :: rest, rng1)

/-- Phase 1 of `init_prover` (lines 53-67): randomizing assignments for
every circuit in batch order, then instance order. -/
def sampleRandomizers (zk : Bool) :
    List (Circuit F × List (CInstance F)) → RNG F →
      List (List (Option (F × F × F))) × RNG F
  | [], rng => ([], rng)
  | (_, insts) :: rest, rng =>
    let (one, rng1) := sampleOne zk insts.length rng
    let (more, rng2) := sampleRandomizers zk rest rng1
    (one :: more, rng2)

/-- Modelled from the spec: inject the randomizing triple into the sink as
additional variables and one additional constraint; no triple (non-ZK)
leaves the sink unchanged. -/
def addRandomizingVariables (cs : ConstraintSys F) :
    Option (F × F × F) → ConstraintSys F
  | none => cs
  | some (a, b, c) =>
    { cs with
      privateVariables := cs.privateVariables ++ [a, b, c]
      numConstraints := cs.numConstraints + 1 }

/-- The least power of two that is at least `n` (structurally computable). -/
def nextPow2 (n : Nat) : Nat :=
  match (List.range (n + 1)).find? (fun k => decide (n ≤ 2 ^ k)) with
  | some k => 2 ^ k
  | none => 1

/-- Modelled from the spec: pad the sink's public vector with zeros to the
power-of-two layout expected by the indexer
(`pad_input_for_indexer_and_prover`). -/
def padInput (cs : ConstraintSys F) : ConstraintSys F :=
  { cs with
    publicVariables := cs.publicVariables ++
      List.replicate
        (nextPow2 cs.publicVariables.length - cs.publicVariables.length) 0 }

/-- Modelled from the spec: the external public-input admissibility
predicate (`formatted_public_input_is_admissible`) — the padded public
vector must have the power-of-two length of an FFT input domain. -/
def formattedPublicInputIsAdmissible (p : List F) : Bool :=
  decide (p.length = nextPow2 p.length)

/-- Loop of `inner_product` (lines 233-241): accumulate
`coefficient · variable` over the row; an out-of-range column index is an
unchecked Rust index, i.e. a panic, modelled as `none`. -/
def innerProductGo (pub priv : List F) (nPub : Nat) :
    List (F × Nat) → F → Option F
  | [], acc => some acc
  | ci :: rest, acc =>
    match (if ci.2 < nPub then pub[ci.2]? else priv[ci.2 - nPub]?) with
    | none => none
    | some v =>
      innerProductGo pub priv nPub rest
        (acc + (if ci.1 = 1 then v else v * ci.1))

/-- Shallow embedding of `inner_product` (lines 225-244). -/
def innerProduct (pub priv : List F) (row : List (F × Nat)) (nPub : Nat) :
    Option F :=
  innerProductGo pub priv nPub row 0

/-- The generic multiply path: the same loop without the
coefficient-equals-identity shortcut. -/
def innerProductGenericGo (pub priv : List F) (nPub : Nat) :
    List (F × Nat) → F → Option F
  | [], acc => some acc
  | ci :: rest, acc =>
    match (if ci.2 < nPub then pub[ci.2]? else priv[ci.2 - nPub]?) with
    | none => none
    | some v => innerProductGenericGo pub priv nPub rest (acc + v * ci.1)

/-- `inner_product` with the generic multiply path for every coefficient. -/
def innerProductGeneric (pub priv : List F) (row : List (F × Nat))
    (nPub : Nat) : Option F :=
  innerProductGenericGo pub priv nPub row 0

/-- One matrix-vector product `z_X` (lines 133-154): the per-row inner
products, in row order; any row panic propagates. -/
def computeZ (pub priv : List F) (nPub : Nat) :
    List (List (F × Nat)) → Option (List F)
  | [] => some []
  | row :: rest =>
    match innerProduct pub priv row nPub, computeZ pub priv nPub rest with
    | some v, some vs => some (v :: vs)
    | _, _ => none

/-- The checks and products of `init_prover` applied to the padded sink
(lines 111-158): assert the constant wire (a Rust `assert!`, so a panic on
failure), check the realized counts against the circuit index, run the
admissibility predicate, and compute `z_A`, `z_B`, `z_C`. -/
def buildAssignments (circuit : Circuit F) (pcs : ConstraintSys F) :
    RunOutcome AHPError (Assignments F) :=
  if pcs.publicVariables.getD 0 0 = 1 then
    if circuit.indexInfo.numConstraints ≠ pcs.numConstraints ∨
        circuit.indexInfo.numVariables ≠
          pcs.publicVariables.length + pcs.privateVariables.length then
      .err .instanceDoesNotMatchIndex
    else if formattedPublicInputIsAdmissible pcs.publicVariables then
      match computeZ pcs.publicVariables pcs.privateVariables
          pcs.publicVariables.length circuit.a,
        computeZ pcs.publicVariables pcs.privateVariables
          pcs.publicVariables.length circuit.b,
        computeZ pcs.publicVariables pcs.privateVariables
          pcs.publicVariables.length circuit.c with
      | some za, some zb, some zc =>
        .ok ⟨pcs.publicVariables, pcs.privateVariables, za, zb, zc⟩
      | _, _, _ => .panic
    else .err .inadmissiblePublicInput
  else .panic

/-- Shallow embedding of the per-instance body of `init_prover`
(lines 80-158): run the instance, inject the randomizing triple in ZK
mode, pad, then run the checks and matrix-vector products. -/
def processInstance (zk : Bool) (circuit : Circuit F) (inst : CInstance F)
    (randAssignment : Option (F × F × F)) :
    RunOutcome AHPError (Assignments F) :=
  match inst with
  | .error _ => .err .synthesisFailure
  | .ok pcs0 =>
    buildAssignments circuit
      (padInput (if zk then addRandomizingVariables pcs0 randAssignment
        else pcs0))

/-- Per-circuit assignment construction: iterate the circuit's instances
zipped with their randomizing assignments, short-circuiting on failure. -/
def processCircuit (zk : Bool) (circuit : Circuit F) :
    List (CInstance F) → List (Option (F × F × F)) →
      RunOutcome AHPError (List (Assignments F))
  | [], _ => .ok []
  | _ :: _, [] => .ok []
  | inst :: insts, rd :: rds =>
    match processInstance zk circuit inst rd with
    | .ok asg =>
      match processCircuit zk circuit insts rds with
      | .ok rest => .ok (asg :: rest)
      | .err e => .err e
      | .panic => .panic
    | .err e => .err e
    | .panic => .panic

/-- Phase 2 of `init_prover` (lines 69-162): `zip_eq` of the batch with the
sampled randomizers (panics on length mismatch, as `zip_eq` does), and
per-circuit construction in batch order. -/
def assembleCircuits (zk : Bool) :
    List (Circuit F × List (CInstance F)) →
      List (List (Option (F × F × F))) →
      RunOutcome AHPError (List (Circuit F × List (Assignments F)))
  | [], [] => .ok []
  | [], _ :: _ => .panic
  | _ :: _, [] => .panic
  | (circuit, insts) :: rest, rd :: rds =>
    match processCircuit zk circuit insts rd with
    | .ok asgs =>
      match assembleCircuits zk rest rds with
      | .ok more => .ok ((circuit, asgs) :: more)
      | .err e => .err e
      | .panic => .panic
    | .err e => .err e
    | .panic => .panic

/-- Modelled from the spec: `prover::State` assembly, preserving the
deterministic circuit order of the input mapping. -/
def assembleState (m : List (Circuit F × List (Assignments F))) :
    RunOutcome AHPError (ProverState F) :=
  .ok ⟨m⟩

/-- Shallow embedding of `AHPForR1CS::init_prover` (lines 47-167): phase 1
draws all ZK randomness in circuit order then instance order; phase 2
builds the per-circuit assignments and assembles the prover state. -/
def initProver (zk : Bool) (batch : List (Circuit F × List (CInstance F)))
    (rng : RNG F) : RunOutcome AHPError (ProverState F) :=
  match assembleCircuits zk batch (sampleRandomizers zk batch rng).1 with
  | .ok m => assembleState m
  | .err e => .err e
  | .panic => .panic

/-- Defined from the spec's words: the per-instance build of a
non-randomized run — the same pipeline with no randomization phase and no
triple injection. -/
def processInstancePlain (circuit : Circuit F) (inst : CInstance F) :
    RunOutcome AHPError (Assignments F) :=
  match inst with
  | .error _ => .err .synthesisFailure
  | .ok pcs0 => buildAssignments circuit (padInput pcs0)

/-- Defined from the spec's words: per-circuit assignments of a
non-randomized run. -/
def processCircuitPlain (circuit : Circuit F) :
    List (CInstance F) → RunOutcome AHPError (List (Assignments F))
  | [] => .ok []
  | inst :: insts =>
    match processInstancePlain circuit inst with
    | .ok asg =>
      match processCircuitPlain circuit insts with
      | .ok rest => .ok (asg :: rest)
      | .err e => .err e
      | .panic => .panic
    | .err e => .err e
    | .panic => .panic

/-- Defined from the spec's words: per-batch assignments of a
non-randomized run. -/
def assembleCircuitsPlain :
    List (Circuit F × List (CInstance F)) →
      RunOutcome AHPError (List (Circuit F × List (Assignments F)))
  | [] => .ok []
  | (circuit, insts) :: rest =>
    match processCircuitPlain circuit insts with
    | .ok asgs =>
      match assembleCircuitsPlain rest with
      | .ok more => .ok ((circuit, asgs) :: more)
      | .err e => .err e
      | .panic => .panic
    | .err e => .err e
    | .panic => .panic

/-- Defined from the spec's words: a full non-randomized run — no entropy
source, no randomization triples, same witness pipeline. -/
def initProverPlain (batch : List (Circuit F × List (CInstance F))) :
    RunOutcome AHPError (ProverState F) :=
  match assembleCircuitsPlain batch with
  | .ok m => assembleState m
  | .err e => .err e
  | .panic => .panic

/-- Number of instances strictly before circuit `j` in the batch. -/
def instancesBefore (batch : List (Circuit F × List (CInstance F)))
    (j : Nat) : Nat :=
  ((batch.take j).map fun p => p.2.length).sum

/-- Defined from the spec's words: the direct dense recomputation
`Σ coefficient · variable` of one sparse row against the concatenated
`[public ‖ private]` vector. -/
def denseSum (pub priv : List F) (nPub : Nat) (row : List (F × Nat)) : F :=
  (row.map fun ci =>
    ci.1 * (if ci.2 < nPub then pub.getD ci.2 0
      else priv.getD (ci.2 - nPub) 0)).sum

/-- A circuit index recording 1 public and 3 private variables,
1 constraint, and empty matrices. -/
def exCircuit : Circuit F5 := ⟨⟨1, 3, 1, 0, 0, 0⟩, [], [], []⟩

/-- A realized sink with 2 public and 2 private variables (total 4,
matching `exCircuit`'s total but not its split) and 1 constraint. -/
def exSys : ConstraintSys F5 := ⟨[1, 0], [0, 0], 1⟩

/-- An instance that synthesizes `exSys`. -/
def exInstance : CInstance F5 := Except.ok exSys

/-- Like `exSys` but with a realized constraint count of 2, mismatching
`exCircuit`'s recorded 1. -/
def exSysBad : ConstraintSys F5 := ⟨[1, 0], [0, 0], 2⟩

/-- A deterministic entropy stream over `F5`. -/
def exStream : Nat → F5 := fun n => (⟨n % 5, Nat.mod_lt n (by omega)⟩ : Fin 5)

/-- A seeded entropy source at position 0. -/
def exRNG : RNG F5 := ⟨exStream, 0⟩

/-- A second, identically seeded entropy source. -/
def exRNGb : RNG F5 := ⟨exStream, 0⟩

/-- The assignments produced for `exInstance` against `exCircuit`. -/
def exAsg : Assignments F5 := ⟨[1, 0], [0, 0], [], [], []⟩

/-- The prover state produced for the singleton batch. -/
def exState : ProverState F5 := ⟨[(exCircuit, [exAsg])]⟩

/-- A batch of two circuits with one and two instances. -/
def exBatch2 : List (Circuit F5 × List (CInstance F5)) :=
  [(exCircuit, [exInstance]), (exCircuit, [exInstance, exInstance])]

/-- A circuit whose matrix `A` has a row with the out-of-range column
index 3 against 1 public and 0 private variables. -/
def exCircuitOob : Circuit F5 := ⟨⟨1, 0, 1, 1, 0, 0⟩, [[(1, 3)]], [], []⟩

/-- The sink matching `exCircuitOob`'s recorded counts. -/
def exSysOob : ConstraintSys F5 := ⟨[1], [], 1⟩

end Definitions

section Theorems

variable {F : Type} [Field F] [DecidableEq F]

theorem coeff_nil (k : Nat) : coeff ([] : List F) k = 0 := rfl

theorem coeff_eq_zero_of_le {p : List F} {k : Nat} (h : p.length ≤ k) :
    coeff p k = 0 := by
  simp [coeff, List.getD_eq_getElem?_getD, List.getElem?_eq_none h]

theorem coeff_cons_succ (a : F) (p : List F) (k : Nat) :
    coeff (a :: p) (k + 1) = coeff p k := rfl

theorem coeff_cons_zero (a : F) (p : List F) : coeff (a :: p) 0 = a := rfl

theorem coeff_polyAdd (p q : List F) (k : Nat) :
    coeff (polyAdd p q) k = coeff p k + coeff q k := by
  induction p generalizing q k with
  | nil => cases q <;> simp [polyAdd, coeff_nil]
  | cons a p ih =>
    cases q with
    | nil => simp [polyAdd, coeff_nil]
    | cons b q =>
      cases k with
      | zero => simp [polyAdd, coeff_cons_zero]
      | succ k => simpa [polyAdd, coeff_cons_succ] using ih q k

theorem coeff_polySub (p q : List F) (k : Nat) :
    coeff (polySub p q) k = coeff p k - coeff q k := by
  induction q generalizing p k with
  | nil => simp [polySub, coeff_nil]
  | cons b q ih =>
    cases p with
    | nil =>
      cases k with
      | zero => simp [polySub, coeff_nil, coeff_cons_zero]
      | succ k =>
        have := ih (p := []) (k := k)
        simpa [polySub, coeff_nil, coeff_cons_succ] using this
    | cons a p =>
      cases k with
      | zero => simp [polySub, coeff_cons_zero]
      | succ k => simpa [polySub, coeff_cons_succ] using ih p k

theorem length_polySub (p q : List F) :
    (polySub p q).length = max p.length q.length := by
  induction q generalizing p with
  | nil => simp [polySub]
  | cons b q ih =>
    cases p with
    | nil => simp [polySub, ih]
    | cons a p => simp [polySub, ih]; omega

theorem coeff_replicate_append (n : Nat) (p : List F) (k : Nat) :
    coeff (List.replicate n (0 : F) ++ p) k =
      if n ≤ k then coeff p (k - n) else 0 := by
  induction n generalizing k with
  | zero => simp [coeff]
  | succ n ih =>
    cases k with
    | zero => simp [List.replicate_succ, coeff_cons_zero]
    | succ k =>
      rw [List.replicate_succ, List.cons_append, coeff_cons_succ, ih]
      by_cases h : n ≤ k
      · rw [if_pos h, if_pos (Nat.succ_le_succ h), Nat.succ_sub_succ]
      · rw [if_neg h, if_neg (by omega)]

theorem coeff_mulByVanishing (n : Nat) (p : List F) (k : Nat) :
    coeff (mulByVanishing n p) k =
      (if n ≤ k then coeff p (k - n) else 0) - coeff p k := by
  simp [mulByVanishing, coeff_polySub, coeff_replicate_append]

theorem length_mulByVanishing (n : Nat) (p : List F) :
    (mulByVanishing n p).length = n + p.length := by
  simp [mulByVanishing, length_polySub]

theorem sumStride_eq_zero {p : List F} {n i : Nat} (h : p.length ≤ i) :
    sumStride p n i = 0 := by
  refine Finset.sum_eq_zero fun j _ => ?_
  exact coeff_eq_zero_of_le (by omega)

theorem sumStride_eq_sum_range {p : List F} {n : Nat} (hn : 0 < n) (i B : Nat)
    (hB : p.length ≤ B) :
    sumStride p n i = ∑ j ∈ Finset.range (B + 1), coeff p (i + j * n) := by
  unfold sumStride
  refine Finset.sum_subset ?_ ?_
  · exact Finset.range_subset.mpr (by omega)
  · intro j _ hj
    simp only [Finset.mem_range] at hj
    refine coeff_eq_zero_of_le ?_
    have h1 : p.length + 1 ≤ j := by omega
    have h2 : j ≤ j * n := Nat.le_mul_of_pos_right j hn
    omega

theorem sumStride_peel {p : List F} {n : Nat} (hn : 0 < n) (i : Nat) :
    sumStride p n i = coeff p i + sumStride p n (i + n) := by
  have h1 : sumStride p n i =
      ∑ j ∈ Finset.range (p.length + 1 + 1), coeff p (i + j * n) :=
    sumStride_eq_sum_range hn i (p.length + 1) (by omega)
  have h2 : sumStride p n (i + n) =
      ∑ j ∈ Finset.range (p.length + 1), coeff p (i + n + j * n) :=
    sumStride_eq_sum_range hn (i + n) p.length (le_refl _)
  have h3 : ∀ j ∈ Finset.range (p.length + 1),
      coeff p (i + (j + 1) * n) = coeff p (i + n + j * n) := by
    intro j _
    congr 1
    ring
  rw [h1, Finset.sum_range_succ', h2, Finset.sum_congr rfl h3,
    show i + 0 * n = i by ring, add_comm]

theorem coeff_div_q {n : Nat} (hn : 0 < n) (p : List F) (i : Nat) :
    coeff (divByVanishing n p).1 i = sumStride p n (i + n) := by
  unfold divByVanishing coeff
  by_cases h : i < p.length - n
  · rw [List.getD_eq_getElem _ _ (by simpa using h)]
    simp
  · rw [List.getD_eq_default _ _ (by simp only [List.length_map, List.length_range]; omega)]
    exact (sumStride_eq_zero (by omega)).symm

theorem coeff_div_r {n : Nat} (hn : 0 < n) (p : List F) (i : Nat) :
    coeff (divByVanishing n p).2 i = if i < n then sumStride p n i else 0 := by
  unfold divByVanishing coeff
  by_cases h : i < min n p.length
  · rw [List.getD_eq_getElem _ _ (by simpa using h)]
    simp only [List.getElem_map, List.getElem_range]
    rw [if_pos (by omega)]
  · rw [List.getD_eq_default _ _ (by simp only [List.length_map, List.length_range]; omega)]
    by_cases h2 : i < n
    · rw [if_pos h2]
      exact (sumStride_eq_zero (by omega)).symm
    · rw [if_neg h2]

/-- Correctness of division by the vanishing polynomial `X^n - 1`:
quotient times `X^n - 1` plus remainder recovers the dividend, coefficientwise. -/
theorem divByVanishing_correct {n : Nat} (hn : 0 < n) (p : List F) (k : Nat) :
    coeff (polyAdd (mulByVanishing n (divByVanishing n p).1)
      (divByVanishing n p).2) k = coeff p k := by
  rw [coeff_polyAdd, coeff_mulByVanishing, coeff_div_q hn, coeff_div_q hn,
    coeff_div_r hn]
  by_cases h : n ≤ k
  · rw [if_pos h, if_neg (by omega)]
    have hkn : k - n + n = k := by omega
    rw [hkn]
    have := sumStride_peel (p := p) hn k
    linear_combination this
  · rw [if_neg h, if_pos (by omega)]
    have := sumStride_peel (p := p) hn k
    linear_combination this

/-- The remainder of division by `X^n - 1` has all coefficients of index
`≥ n` equal to zero. -/
theorem coeff_div_r_high {n : Nat} (hn : 0 < n) (p : List F) {k : Nat}
    (hk : n ≤ k) : coeff (divByVanishing n p).2 k = 0 := by
  rw [coeff_div_r hn, if_neg (by omega)]

/-- Key algebraic fact behind the remainder-witness branch: if `r` has degree
below `n`, and `n` divides `N`, every strided coefficient sum of
`r·(X^N - 1)` with stride `n` at an offset below `n` vanishes. -/
theorem sumStride_mulByVanishing {n N : Nat} (hn : 0 < n) (hN : 0 < N)
    (hd : n ∣ N) (r : List F) (hr : ∀ k, n ≤ k → coeff r k = 0) {i : Nat}
    (hi : i < n) : sumStride (mulByVanishing N r) n i = 0 := by
  obtain ⟨c, hc⟩ := hd
  rw [Nat.mul_comm] at hc
  have hc1 : 1 ≤ c := by
    by_contra hcon
    have hc0 : c = 0 := by omega
    rw [hc0, Nat.zero_mul] at hc
    omega
  set p := mulByVanishing N r with hp
  have hlen : p.length = N + r.length := length_mulByVanishing N r
  have hcB : c ≤ p.length := by
    have h1 : c ≤ c * n := Nat.le_mul_of_pos_right c hn
    omega
  have hpoint : ∀ j, coeff p (i + j * n) =
      (if j = c then coeff r i else 0) - (if j = 0 then coeff r i else 0) := by
    intro j
    rw [hp, coeff_mulByVanishing]
    have hsecond : coeff r (i + j * n) = if j = 0 then coeff r i else 0 := by
      by_cases hj : j = 0
      · rw [if_pos hj, hj]
        simp
      · rw [if_neg hj]
        refine hr _ ?_
        have h1 : 1 * n ≤ j * n := Nat.mul_le_mul_right n (by omega)
        omega
    rw [hsecond]
    congr 1
    by_cases hj : j = c
    · subst hj
      rw [if_pos (by omega), if_pos rfl]
      congr 1
      omega
    · rw [if_neg hj]
      rcases Nat.lt_trichotomy j c with hlt | heq | hgt

      · rw [if_neg ?side]
        case side =>
          have h1 : j * n ≤ (c - 1) * n := Nat.mul_le_mul_right n (by omega)
          have h2 : (c - 1) * n + 1 * n = (c - 1 + 1) * n := by ring
          have h3 : c - 1 + 1 = c := by omega
          rw [h3] at h2
          omega
      · exact absurd heq hj
      · rw [if_pos ?side]
        case side =>
          have h1 : (c + 1) * n ≤ j * n := Nat.mul_le_mul_right n (by omega)
          have h2 : (c + 1) * n = c * n + 1 * n := by ring
          omega
        refine hr _ ?_
        have h1 : (c + 1) * n ≤ j * n := Nat.mul_le_mul_right n (by omega)
        have h2 : (c + 1) * n = c * n + 1 * n := by ring
        omega
  rw [sumStride_eq_sum_range hn i p.length (le_refl _),
    Finset.sum_congr rfl fun j _ => hpoint j, Finset.sum_sub_distrib]
  rw [Finset.sum_ite_eq' (Finset.range (p.length + 1)) c fun _ => coeff r i]
  rw [Finset.sum_ite_eq' (Finset.range (p.length + 1)) 0 fun _ => coeff r i]
  rw [if_pos (Finset.mem_range.mpr (by omega)),
    if_pos (Finset.mem_range.mpr (by omega))]
  ring

theorem coeff_trim (p : List F) (k : Nat) : coeff (trim p) k = coeff p k := by
  induction p generalizing k with
  | nil => rfl
  | cons a t ih =>
    cases htt : trim t with
    | nil =>
      have hz : ∀ m, coeff t m = 0 := by
        intro m
        rw [← ih m, htt, coeff_nil]
      simp only [trim, htt]
      by_cases ha : a = 0
      · rw [if_pos ha]
        cases k with
        | zero => rw [coeff_nil, coeff_cons_zero, ha]
        | succ k => rw [coeff_nil, coeff_cons_succ, hz]
      · rw [if_neg ha]
        cases k with
        | zero => rfl
        | succ k =>
          rw [coeff_cons_succ, coeff_cons_succ, coeff_nil, hz]
    | cons b t2 =>
      simp only [trim, htt]
      cases k with
      | zero => rfl
      | succ k =>
        rw [coeff_cons_succ, coeff_cons_succ, ← htt, ih]

theorem trim_eq_nil {p : List F} (h : ∀ k, coeff p k = 0) : trim p = [] := by
  induction p with
  | nil => rfl
  | cons a t ih =>
    have ht : trim t = [] := ih fun k => h (k + 1)
    have ha : a = 0 := h 0
    simp [trim, ht, ha]

theorem trim_eq_trim {p q : List F} (h : ∀ k, coeff p k = coeff q k) :
    trim p = trim q := by
  induction p generalizing q with
  | nil =>
    exact (trim_eq_nil fun k => ((h k).symm.trans (coeff_nil k))).symm
  | cons a t ih =>
    cases q with
    | nil => exact trim_eq_nil fun k => (h k).trans (coeff_nil k)
    | cons b s =>
      have hab : a = b := h 0
      have hts : trim t = trim s := ih fun k => h (k + 1)
      simp only [trim, hts, hab]

theorem isZero_eq_true {p : List F} (h : ∀ k, coeff p k = 0) :
    isZero p = true := by
  unfold isZero
  rw [List.all_eq_true]
  intro x hx
  obtain ⟨k, hk, hxk⟩ := List.mem_iff_getElem.mp hx
  have hx0 : x = 0 := by
    rw [← hxk]
    have hck := h k
    rwa [coeff, List.getD_eq_getElem _ _ hk] at hck
  simp [hx0]

/-- If the first remainder `r` has degree below `n`, and `n` divides `N`,
then `r · (X^N - 1)` divides exactly by `X^n - 1`: zero remainder. -/
theorem isZero_second_remainder {n N : Nat} (hn : 0 < n) (hN : 0 < N)
    (hd : n ∣ N) (r : List F) (hr : ∀ k, n ≤ k → coeff r k = 0) :
    isZero (divByVanishing n (mulByVanishing N r)).2 = true := by
  refine isZero_eq_true fun k => ?_
  rw [coeff_div_r hn]
  by_cases hk : k < n
  · rw [if_pos hk]
    exact sumStride_mulByVanishing hn hN hd r hr hk
  · rw [if_neg hk]

theorem applyRandomizedSelector_no_witness_cases (poly : List F) (combiner : F)
    (targetDomain srcDomain : EvalDomain) (hs : 0 < srcDomain.size) :
    applyRandomizedSelector poly combiner targetDomain srcDomain false =
      if isZero (divByVanishing srcDomain.size poly).2 then
        .ok ((divByVanishing srcDomain.size poly).1.map fun c =>
          c * selectorMultiplier combiner targetDomain srcDomain, none)
      else .panic := by
  have hne : srcDomain.size ≠ 0 := by omega
  simp only [applyRandomizedSelector, divideByVanishingPoly, if_neg hne,
    Bool.not_false, if_true]

theorem applyRandomizedSelector_witness_cases (poly : List F) (combiner : F)
    (targetDomain srcDomain : EvalDomain) (hs : 0 < srcDomain.size) :
    applyRandomizedSelector poly combiner targetDomain srcDomain true =
      if isZero (divByVanishing srcDomain.size
          (mulByVanishingPoly (divByVanishing srcDomain.size (poly.map fun c =>
            c * selectorMultiplier combiner targetDomain srcDomain)).2
            targetDomain)).2 then
        .ok ((divByVanishing srcDomain.size (poly.map fun c =>
            c * selectorMultiplier combiner targetDomain srcDomain)).1,
          some ((divByVanishing srcDomain.size
            (mulByVanishingPoly (divByVanishing srcDomain.size
              (poly.map fun c =>
                c * selectorMultiplier combiner targetDomain srcDomain)).2
              targetDomain)).1))
      else .panic := by
  have hne : srcDomain.size ≠ 0 := by omega
  simp only [applyRandomizedSelector, divideByVanishingPoly, if_neg hne,
    Bool.not_true, Bool.false_eq_true, if_false]

/-- C1: with `remainder_witness = true`, `apply_randomized_selector` scales
every coefficient of `poly` by the multiplier `c_i · |H_i| · |H|⁻¹`, divides
the scaled polynomial by `v_{H_i}` obtaining `(h_i, x_{g_i})`, multiplies
`x_{g_i}` by `v_H`, divides that product by `v_{H_i}` again with a second
remainder that is exactly the zero polynomial, and returns
`(h_i, some (second quotient))`; and the identity
`h_i · v_{H_i} + x_{g_i} = scaled polynomial` holds exactly over the field
(domain sizes are powers of two, the source domain inside the target). -/
theorem remainder_witness_mode_spec {F : Type} [Field F] [DecidableEq F]
    (poly : List F) (combiner : F) (targetDomain srcDomain : EvalDomain)
    (a b : Nat) (hsrc : srcDomain.size = 2 ^ a) (htgt : targetDomain.size = 2 ^ b)
    (hab : a ≤ b) :
    applyRandomizedSelector poly combiner targetDomain srcDomain true =
      .ok ((divByVanishing srcDomain.size (poly.map fun c =>
          c * selectorMultiplier combiner targetDomain srcDomain)).1,
        some ((divByVanishing srcDomain.size
          (mulByVanishingPoly (divByVanishing srcDomain.size
            (poly.map fun c =>
              c * selectorMultiplier combiner targetDomain srcDomain)).2
            targetDomain)).1)) ∧
    isZero (divByVanishing srcDomain.size
      (mulByVanishingPoly (divByVanishing srcDomain.size (poly.map fun c =>
        c * selectorMultiplier combiner targetDomain srcDomain)).2
        targetDomain)).2 = true ∧
    trim (polyAdd
      (mulByVanishing srcDomain.size (divByVanishing srcDomain.size
        (poly.map fun c =>
          c * selectorMultiplier combiner targetDomain srcDomain)).1)
      (divByVanishing srcDomain.size (poly.map fun c =>
        c * selectorMultiplier combiner targetDomain srcDomain)).2) =
    trim (poly.map fun c =>
      c * selectorMultiplier combiner targetDomain srcDomain) := by
  have hn : 0 < srcDomain.size := by
    rw [hsrc]
    exact Nat.pos_pow_of_pos a (by norm_num)
  have hN : 0 < targetDomain.size := by
    rw [htgt]
    exact Nat.pos_pow_of_pos b (by norm_num)
  have hdvd : srcDomain.size ∣ targetDomain.size := by
    rw [hsrc, htgt]
    exact pow_dvd_pow 2 hab
  have hr : ∀ k, srcDomain.size ≤ k →
      coeff (divByVanishing srcDomain.size (poly.map fun c =>
        c * selectorMultiplier combiner targetDomain srcDomain)).2 k = 0 :=
    fun k hk => coeff_div_r_high hn _ hk
  have hz2 : isZero (divByVanishing srcDomain.size
      (mulByVanishingPoly (divByVanishing srcDomain.size (poly.map fun c =>
        c * selectorMultiplier combiner targetDomain srcDomain)).2
        targetDomain)).2 = true :=
    isZero_second_remainder hn hN hdvd _ hr
  refine ⟨?_, hz2, ?_⟩
  · rw [applyRandomizedSelector_witness_cases poly combiner targetDomain
      srcDomain hn, if_pos hz2]
  · exact trim_eq_trim fun k => divByVanishing_correct hn _ k

/-- C2: with `remainder_witness = false`, if `poly` divides exactly by
`v_{H_i}` (zero remainder) the call returns `(q, none)` with `q` the
quotient scaled coefficientwise by `c_i · |H_i| · |H|⁻¹`; a non-zero
remainder is a fatal panic (structural invariant violation), not a
recoverable returned error. -/
theorem no_remainder_witness_mode_spec {F : Type} [Field F] [DecidableEq F]
    (poly : List F) (combiner : F) (targetDomain srcDomain : EvalDomain)
    (hs : 0 < srcDomain.size) :
    (isZero (divByVanishing srcDomain.size poly).2 = true →
      applyRandomizedSelector poly combiner targetDomain srcDomain false =
        .ok ((divByVanishing srcDomain.size poly).1.map fun c =>
          c * selectorMultiplier combiner targetDomain srcDomain, none)) ∧
    (isZero (divByVanishing srcDomain.size poly).2 = false →
      applyRandomizedSelector poly combiner targetDomain srcDomain false =
        .panic) := by
  constructor
  · intro h
    rw [applyRandomizedSelector_no_witness_cases poly combiner targetDomain
      srcDomain hs, if_pos h]
  · intro h
    rw [applyRandomizedSelector_no_witness_cases poly combiner targetDomain
      srcDomain hs, if_neg (by rw [h]; exact Bool.false_ne_true)]

/-- C8 (amended): for a degenerate source domain, the no-remainder-witness
branch surfaces a returned error, while the remainder-witness branch
panics (`unwrap`); both are fatal and neither is recovered locally. -/
theorem degenerate_domain_fatal {F : Type} [Field F] [DecidableEq F]
    (poly : List F) (combiner : F) (targetDomain srcDomain : EvalDomain)
    (hs : srcDomain.size = 0) :
    applyRandomizedSelector poly combiner targetDomain srcDomain false =
      .err () ∧
    applyRandomizedSelector poly combiner targetDomain srcDomain true =
      .panic := by
  constructor <;>
    simp [applyRandomizedSelector, divideByVanishingPoly, hs]

/-- C8 counterexample: in remainder-witness mode a degenerate source domain
makes `apply_randomized_selector` panic (the `unwrap` on line 215), so the
failure is not surfaced to the caller as a returned error, refuting the
claim for that mode. -/
theorem degenerate_domain_counterexample :
    applyRandomizedSelector (F := F5) [1] 1 ⟨4⟩ ⟨0⟩ true =
      RunOutcome.panic := by
  decide

/-- Witness for C8 (amended) at a concrete degenerate domain. -/
theorem degenerate_domain_fatal_witness :
    (⟨0⟩ : EvalDomain).size = 0 ∧
    applyRandomizedSelector (F := F5) [1] 1 ⟨4⟩ ⟨0⟩ false =
      RunOutcome.err () ∧
    applyRandomizedSelector (F := F5) [1] 1 ⟨4⟩ ⟨0⟩ true =
      RunOutcome.panic :=
  ⟨rfl, (degenerate_domain_fatal [1] 1 ⟨4⟩ ⟨0⟩ rfl).1,
    (degenerate_domain_fatal [1] 1 ⟨4⟩ ⟨0⟩ rfl).2⟩

/-- Witness for C1 at concrete domains of sizes 2 and 4 over `F5`. -/
theorem remainder_witness_mode_spec_witness :
    (⟨2⟩ : EvalDomain).size = 2 ^ 1 ∧ (⟨4⟩ : EvalDomain).size = 2 ^ 2 ∧
    1 ≤ 2 ∧
    applyRandomizedSelector (F := F5) [1, 2, 3, 4] 1 ⟨4⟩ ⟨2⟩ true =
      RunOutcome.ok ([4, 2], some [2, 3, 2, 3]) := by
  refine ⟨rfl, rfl, by omega, ?_⟩
  have h := (remainder_witness_mode_spec (F := F5) [1, 2, 3, 4] 1 ⟨4⟩ ⟨2⟩
    1 2 rfl rfl (by omega)).1
  exact h.trans (by decide)

/-- Witness for C2 at a polynomial that divides exactly by `v_{H_i}`
over `F5`: `X² - 1` divided by the vanishing polynomial of a domain
of size 2. -/
theorem no_remainder_witness_mode_spec_witness :
    0 < (⟨2⟩ : EvalDomain).size ∧
    isZero (divByVanishing 2 ([4, 0, 1] : List F5)).2 = true ∧
    applyRandomizedSelector (F := F5) [4, 0, 1] 1 ⟨4⟩ ⟨2⟩ false =
      RunOutcome.ok ([3], none) := by
  refine ⟨by decide, by decide, ?_⟩
  have h := (no_remainder_witness_mode_spec (F := F5) [4, 0, 1] 1 ⟨4⟩ ⟨2⟩
    (by decide)).1 (by decide)
  exact h.trans (by decide)

theorem sampleOne_false (n : Nat) (rng : RNG F) :
    sampleOne false n rng = (List.replicate n none, rng) := by
  induction n with
  | zero => rfl
  | succ m ih => simp [sampleOne, ih, List.replicate_succ]

theorem sampleOne_length (zk : Bool) (n : Nat) (rng : RNG F) :
    (sampleOne zk n rng).1.length = n := by
  induction n generalizing rng with
  | zero => rfl
  | succ m ih =>
    cases zk with
    | false => simp [sampleOne, ih]
    | true => simp [sampleOne, RNG.next, ih]

theorem sampleOne_true_rng (n : Nat) (rng : RNG F) :
    (sampleOne true n rng).2 = ⟨rng.stream, rng.pos + 2 * n⟩ := by
  induction n generalizing rng with
  | zero => simp [sampleOne]
  | succ m ih =>
    simp only [sampleOne, RNG.next, if_true]
    rw [ih]
    simp only [RNG.mk.injEq, true_and]
    omega

theorem sampleOne_true_get (n : Nat) (rng : RNG F) (k : Nat) (hk : k < n) :
    (sampleOne true n rng).1.getD k none =
      some (rng.stream (rng.pos + 2 * k), rng.stream (rng.pos + 2 * k + 1),
        rng.stream (rng.pos + 2 * k) * rng.stream (rng.pos + 2 * k + 1)) := by
  induction n generalizing rng k with
  | zero => omega
  | succ m ih =>
    cases k with
    | zero => simp [sampleOne, RNG.next]
    | succ k =>
      have hk2 : k < m := by omega
      simp only [sampleOne, RNG.next, if_true, List.getD_cons_succ]
      rw [ih ⟨rng.stream, rng.pos + 1 + 1⟩ k hk2]
      have h1 : rng.pos + 1 + 1 + 2 * k = rng.pos + 2 * (k + 1) := by omega
      rw [h1]

theorem sampleRandomizers_false (batch : List (Circuit F × List (CInstance F)))
    (rng : RNG F) :
    sampleRandomizers false batch rng =
      (batch.map fun p => List.replicate p.2.length none, rng) := by
  induction batch generalizing rng with
  | nil => rfl
  | cons p rest ih =>
    obtain ⟨c, insts⟩ := p
    simp [sampleRandomizers, sampleOne_false, ih]

theorem sampleRandomizers_length (zk : Bool)
    (batch : List (Circuit F × List (CInstance F))) (rng : RNG F) :
    (sampleRandomizers zk batch rng).1.length = batch.length := by
  induction batch generalizing rng with
  | nil => rfl
  | cons p rest ih =>
    obtain ⟨c, insts⟩ := p
    simp [sampleRandomizers, ih]

theorem instancesBefore_zero (batch : List (Circuit F × List (CInstance F))) :
    instancesBefore batch 0 = 0 := by
  simp [instancesBefore]

theorem instancesBefore_succ (p : Circuit F × List (CInstance F))
    (rest : List (Circuit F × List (CInstance F))) (j : Nat) :
    instancesBefore (p :: rest) (j + 1) =
      p.2.length + instancesBefore rest j := by
  simp [instancesBefore, List.take_succ_cons]

theorem sampleRandomizers_true_getLength
    (batch : List (Circuit F × List (CInstance F))) (rng : RNG F) (j : Nat)
    (hj : j < batch.length) :
    ((sampleRandomizers true batch rng).1.getD j []).length =
      (batch.get ⟨j, hj⟩).2.length := by
  induction batch generalizing rng j with
  | nil => simp only [List.length_nil] at hj; omega
  | cons p rest ih =>
    obtain ⟨c, insts⟩ := p
    cases j with
    | zero =>
      simp [sampleRandomizers, sampleOne_length]
    | succ j =>
      have hj2 : j < rest.length := by simpa using hj
      simp only [sampleRandomizers, List.getD_cons_succ, List.get_eq_getElem,
        List.getElem_cons_succ]
      exact ih _ j hj2

theorem sampleRandomizers_true_get
    (batch : List (Circuit F × List (CInstance F))) (rng : RNG F)
    (j : Nat) (hj : j < batch.length) (k : Nat)
    (hk : k < (batch.get ⟨j, hj⟩).2.length) :
    ((sampleRandomizers true batch rng).1.getD j []).getD k none =
      some (rng.stream (rng.pos + 2 * (instancesBefore batch j + k)),
        rng.stream (rng.pos + 2 * (instancesBefore batch j + k) + 1),
        rng.stream (rng.pos + 2 * (instancesBefore batch j + k)) *
          rng.stream (rng.pos + 2 * (instancesBefore batch j + k) + 1)) := by
  induction batch generalizing rng j with
  | nil => simp only [List.length_nil] at hj; omega
  | cons p rest ih =>
    obtain ⟨c, insts⟩ := p
    cases j with
    | zero =>
      have hk2 : k < insts.length := by simpa using hk
      simp only [sampleRandomizers, List.getD_cons_zero, instancesBefore_zero]
      rw [sampleOne_true_get insts.length rng k hk2]
      have h0 : instancesBefore ((c, insts) :: rest) 0 + k = k := by
        rw [instancesBefore_zero]
        omega
      simp [Nat.zero_add]
    | succ j =>
      have hj2 : j < rest.length := by simpa using hj
      have hk2 : k < (rest.get ⟨j, hj2⟩).2.length := by simpa using hk
      simp only [sampleRandomizers, List.getD_cons_succ]
      rw [sampleOne_true_rng, ih ⟨rng.stream, rng.pos + 2 * insts.length⟩ j
        hj2 hk2]
      rw [instancesBefore_succ]
      have h1 : rng.pos + 2 * insts.length +
          2 * (instancesBefore rest j + k) =
          rng.pos + 2 * (insts.length + instancesBefore rest j + k) := by
        omega
      rw [h1]

theorem processInstance_false (circuit : Circuit F) (inst : CInstance F)
    (rt : Option (F × F × F)) :
    processInstance false circuit inst rt = processInstancePlain circuit inst := by
  cases inst <;> rfl

theorem processCircuit_false (circuit : Circuit F) (insts : List (CInstance F)) :
    processCircuit false circuit insts (List.replicate insts.length none) =
      processCircuitPlain circuit insts := by
  induction insts with
  | nil => rfl
  | cons i is ih =>
    simp only [List.length_cons, List.replicate_succ, processCircuit,
      processCircuitPlain]
    rw [processInstance_false, ih]

theorem assembleCircuits_false (batch : List (Circuit F × List (CInstance F))) :
    assembleCircuits false batch
      (batch.map fun p => List.replicate p.2.length none) =
      assembleCircuitsPlain batch := by
  induction batch with
  | nil => rfl
  | cons p rest ih =>
    obtain ⟨c, insts⟩ := p
    simp only [List.map_cons, assembleCircuits, assembleCircuitsPlain]
    rw [processCircuit_false, ih]

theorem initProver_false (batch : List (Circuit F × List (CInstance F)))
    (rng : RNG F) : initProver false batch rng = initProverPlain batch := by
  unfold initProver initProverPlain
  rw [sampleRandomizers_false, assembleCircuits_false]

theorem innerProductGo_eq_generic (pub priv : List F) (nPub : Nat) :
    ∀ (row : List (F × Nat)) (acc : F),
      innerProductGo pub priv nPub row acc =
        innerProductGenericGo pub priv nPub row acc := by
  intro row
  induction row with
  | nil => intro acc; rfl
  | cons ci rest ih =>
    intro acc
    rcases hv : (if ci.2 < nPub then pub[ci.2]? else priv[ci.2 - nPub]?)
      with _ | v
    · simp only [innerProductGo, innerProductGenericGo, hv]
    · simp only [innerProductGo, innerProductGenericGo, hv]
      by_cases h1 : ci.1 = 1
      · rw [if_pos h1, h1, mul_one, ih]
      · rw [if_neg h1, ih]

theorem innerProductGo_bounds (pub priv : List F) (nPub : Nat)
    (hpub : pub.length = nPub) :
    ∀ (row : List (F × Nat)) (acc : F),
      (∀ ci ∈ row, ci.2 < nPub + priv.length) →
      innerProductGo pub priv nPub row acc =
        some (acc + denseSum pub priv nPub row) := by
  intro row
  induction row with
  | nil =>
    intro acc h
    simp [innerProductGo, denseSum]
  | cons ci rest ih =>
    intro acc h
    have hci := h ci (List.mem_cons_self ci rest)
    have hrest : ∀ x ∈ rest, x.2 < nPub + priv.length :=
      fun x hx => h x (List.mem_cons_of_mem _ hx)
    by_cases hlt : ci.2 < nPub
    · have hin : ci.2 < pub.length := by omega
      have hv : pub[ci.2]? = some (pub.getD ci.2 0) := by
        rw [List.getElem?_eq_getElem hin, List.getD_eq_getElem _ _ hin]
      simp only [innerProductGo, if_pos hlt, hv]
      rw [ih _ hrest]
      have hds : denseSum pub priv nPub (ci :: rest) =
          ci.1 * pub.getD ci.2 0 + denseSum pub priv nPub rest := by
        simp [denseSum, if_pos hlt]
      rw [hds, Option.some.injEq]
      by_cases h1 : ci.1 = 1
      · rw [if_pos h1, h1]
        ring
      · rw [if_neg h1]
        ring
    · have hin : ci.2 - nPub < priv.length := by omega
      have hv : priv[ci.2 - nPub]? = some (priv.getD (ci.2 - nPub) 0) := by
        rw [List.getElem?_eq_getElem hin, List.getD_eq_getElem _ _ hin]
      simp only [innerProductGo, if_neg hlt, hv]
      rw [ih _ hrest]
      have hds : denseSum pub priv nPub (ci :: rest) =
          ci.1 * priv.getD (ci.2 - nPub) 0 + denseSum pub priv nPub rest := by
        simp [denseSum, if_neg hlt]
      rw [hds, Option.some.injEq]
      by_cases h1 : ci.1 = 1
      · rw [if_pos h1, h1]
        ring
      · rw [if_neg h1]
        ring

theorem innerProduct_bounds (pub priv : List F) (row : List (F × Nat))
    (nPub : Nat) (hpub : pub.length = nPub)
    (hrow : ∀ ci ∈ row, ci.2 < nPub + priv.length) :
    innerProduct pub priv row nPub = some (denseSum pub priv nPub row) := by
  unfold innerProduct
  rw [innerProductGo_bounds pub priv nPub hpub row 0 hrow, zero_add]

theorem computeZ_getD (pub priv : List F) (nPub : Nat)
    (hpub : pub.length = nPub) :
    ∀ (rows : List (List (F × Nat))) (z : List F),
      (∀ row ∈ rows, ∀ ci ∈ row, ci.2 < nPub + priv.length) →
      computeZ pub priv nPub rows = some z →
      ∀ k < rows.length,
        z.getD k 0 = denseSum pub priv nPub (rows.getD k []) := by
  intro rows
  induction rows with
  | nil =>
    intro z h hz k hk
    simp at hk
  | cons row rest ih =>
    intro z h hz k hk
    have hrow := h row (List.mem_cons_self row rest)
    have hrest : ∀ r ∈ rest, ∀ ci ∈ r, ci.2 < nPub + priv.length :=
      fun r hr => h r (List.mem_cons_of_mem _ hr)
    simp only [computeZ] at hz
    rw [innerProduct_bounds pub priv row nPub hpub hrow] at hz
    rcases hzr : computeZ pub priv nPub rest with _ | vs
    · rw [hzr] at hz
      exact Option.noConfusion hz
    · rw [hzr] at hz
      simp only [Option.some.injEq] at hz
      subst hz
      cases k with
      | zero => rfl
      | succ k =>
        have hk2 : k < rest.length := by simpa using hk
        simpa using ih vs hrest hzr k hk2

theorem computeZ_append (pub priv : List F) (nPub : Nat)
    (rows : List (List (F × Nat))) (row : List (F × Nat)) :
    computeZ pub priv nPub (rows ++ [row]) =
      match computeZ pub priv nPub rows, innerProduct pub priv row nPub with
      | some vs, some v => some (vs ++ [v])
      | _, _ => none := by
  induction rows with
  | nil =>
    simp only [List.nil_append, computeZ]
    rcases innerProduct pub priv row nPub with _ | v <;> rfl
  | cons r rest ih =>
    rw [List.cons_append]
    simp only [computeZ]
    rw [ih]
    rcases innerProduct pub priv r nPub with _ | v <;>
      rcases computeZ pub priv nPub rest with _ | vs <;>
      rcases innerProduct pub priv row nPub with _ | w <;> rfl

theorem computeZ_reverse (pub priv : List F) (nPub : Nat)
    (rows : List (List (F × Nat))) :
    computeZ pub priv nPub rows.reverse =
      (computeZ pub priv nPub rows).map List.reverse := by
  induction rows with
  | nil => rfl
  | cons row rest ih =>
    rw [List.reverse_cons, computeZ_append, ih]
    simp only [computeZ]
    rcases innerProduct pub priv row nPub with _ | v <;>
      rcases computeZ pub priv nPub rest with _ | vs <;>
      simp

theorem buildAssignments_ok_head (circuit : Circuit F)
    (pcs : ConstraintSys F) (asg : Assignments F)
    (h : buildAssignments circuit pcs = .ok asg) :
    asg.publicVariables.getD 0 0 = 1 := by
  simp only [buildAssignments] at h
  split at h
  case isFalse => exact RunOutcome.noConfusion h
  case isTrue h1 =>
    split at h
    case isTrue => exact RunOutcome.noConfusion h
    case isFalse =>
      split at h
      case isFalse => exact RunOutcome.noConfusion h
      case isTrue =>
        split at h <;> try exact RunOutcome.noConfusion h
        injection h with h2
        subst h2
        exact h1

theorem processInstance_ok_head (zk : Bool) (circuit : Circuit F)
    (inst : CInstance F) (rt : Option (F × F × F)) (asg : Assignments F)
    (h : processInstance zk circuit inst rt = .ok asg) :
    asg.publicVariables.getD 0 0 = 1 := by
  cases inst with
  | error e => exact RunOutcome.noConfusion h
  | ok pcs0 =>
    simp only [processInstance] at h
    exact buildAssignments_ok_head circuit _ asg h

theorem processCircuit_ok_head (zk : Bool) (circuit : Circuit F) :
    ∀ (insts : List (CInstance F)) (rds : List (Option (F × F × F)))
      (asgs : List (Assignments F)),
      processCircuit zk circuit insts rds = .ok asgs →
      ∀ asg ∈ asgs, asg.publicVariables.getD 0 0 = 1 := by
  intro insts
  induction insts with
  | nil =>
    intro rds asgs h asg ha
    simp only [processCircuit] at h
    injection h with h2
    subst h2
    simp at ha
  | cons i is ih =>
    intro rds asgs h asg ha
    cases rds with
    | nil =>
      simp only [processCircuit] at h
      injection h with h2
      subst h2
      simp at ha
    | cons r rs =>
      simp only [processCircuit] at h
      rcases hpi : processInstance zk circuit i r with a | e | _ <;>
        rw [hpi] at h
      · rcases hpc : processCircuit zk circuit is rs with as2 | e2 | _ <;>
          rw [hpc] at h
        · injection h with h2
          subst h2
          rcases List.mem_cons.mp ha with rfl | hmem
          · exact processInstance_ok_head zk circuit i r asg hpi
          · exact ih rs as2 hpc asg hmem
        · exact RunOutcome.noConfusion h
        · exact RunOutcome.noConfusion h
      · exact RunOutcome.noConfusion h
      · exact RunOutcome.noConfusion h

theorem assembleCircuits_ok_head (zk : Bool) :
    ∀ (batch : List (Circuit F × List (CInstance F)))
      (rds : List (List (Option (F × F × F))))
      (m : List (Circuit F × List (Assignments F))),
      assembleCircuits zk batch rds = .ok m →
      ∀ ca ∈ m, ∀ asg ∈ ca.2, asg.publicVariables.getD 0 0 = 1 := by
  intro batch
  induction batch with
  | nil =>
    intro rds m h ca hca
    cases rds with
    | nil =>
      simp only [assembleCircuits] at h
      injection h with h2
      subst h2
      simp at hca
    | cons r rs => exact RunOutcome.noConfusion h
  | cons p rest ih =>
    obtain ⟨c, insts⟩ := p
    intro rds m h ca hca
    cases rds with
    | nil => exact RunOutcome.noConfusion h
    | cons r rs =>
      simp only [assembleCircuits] at h
      rcases hpc : processCircuit zk c insts r with asgs | e | _ <;>
        rw [hpc] at h
      · rcases hac : assembleCircuits zk rest rs with m2 | e2 | _ <;>
          rw [hac] at h
        · injection h with h2
          subst h2
          rcases List.mem_cons.mp hca with rfl | hmem
          · exact processCircuit_ok_head zk c insts r asgs hpc
          · exact ih rs m2 hac ca hmem
        · exact RunOutcome.noConfusion h
        · exact RunOutcome.noConfusion h
      · exact RunOutcome.noConfusion h
      · exact RunOutcome.noConfusion h

theorem initProver_ok_head (zk : Bool)
    (batch : List (Circuit F × List (CInstance F))) (rng : RNG F)
    (st : ProverState F) (h : initProver zk batch rng = .ok st) :
    ∀ ca ∈ st.circuitsAndAssignments, ∀ asg ∈ ca.2,
      asg.publicVariables.getD 0 0 = 1 := by
  intro ca hca asg hasg
  unfold initProver at h
  rcases hac : assembleCircuits zk batch (sampleRandomizers zk batch rng).1
    with m | e | _ <;> rw [hac] at h
  · simp only [assembleState] at h
    injection h with h2
    subst h2
    exact assembleCircuits_ok_head zk batch _ m hac ca hca asg hasg
  · exact RunOutcome.noConfusion h
  · exact RunOutcome.noConfusion h

/-- C3 (amended): if constraint generation succeeded and the padded public
vector starts with the multiplicative identity, then a mismatch of the
realized constraint count against the recorded `num_constraints`, or of
the realized total variable count against the recorded `num_variables`
(= `num_public_variables + num_private_variables`), makes the
per-instance build fail with `InstanceDoesNotMatchIndex` — no panic, no
truncation. A public/private split mismatch that preserves both totals is
not detected (see the counterexample). -/
theorem index_mismatch_detected {F : Type} [Field F] [DecidableEq F]
    (zk : Bool) (circuit : Circuit F) (inst : CInstance F)
    (rt : Option (F × F × F)) (cs : ConstraintSys F)
    (hinst : inst = Except.ok cs)
    (hhead : (padInput (if zk then addRandomizingVariables cs rt
      else cs)).publicVariables.getD 0 0 = 1)
    (hmis : circuit.indexInfo.numConstraints ≠
        (padInput (if zk then addRandomizingVariables cs rt
          else cs)).numConstraints ∨
      circuit.indexInfo.numVariables ≠
        (padInput (if zk then addRandomizingVariables cs rt
          else cs)).publicVariables.length +
        (padInput (if zk then addRandomizingVariables cs rt
          else cs)).privateVariables.length) :
    processInstance zk circuit inst rt =
      RunOutcome.err AHPError.instanceDoesNotMatchIndex := by
  subst hinst
  simp only [processInstance, buildAssignments]
  rw [if_pos hhead, if_pos hmis]

/-- C3 counterexample: an instance whose realized public/private split
(2 public, 2 private) differs from the recorded split (1 public,
3 private) while the totals and the constraint count match builds
successfully, so the claimed `InstanceDoesNotMatchIndex` failure does not
occur on a public-length mismatch alone. -/
theorem index_mismatch_counterexample :
    initProver false [(exCircuit, [exInstance])] exRNG =
      RunOutcome.ok exState ∧
    exAsg.publicVariables.length ≠ exCircuit.indexInfo.numPublicVariables := by
  decide

/-- Witness for C3 (amended) at a concrete constraint-count mismatch. -/
theorem index_mismatch_detected_witness :
    (padInput exSysBad).publicVariables.getD 0 0 = 1 ∧
    exCircuit.indexInfo.numConstraints ≠ (padInput exSysBad).numConstraints ∧
    processInstance false exCircuit (Except.ok exSysBad) none =
      RunOutcome.err AHPError.instanceDoesNotMatchIndex :=
  ⟨by decide, by decide,
    index_mismatch_detected false exCircuit (Except.ok exSysBad) none
      exSysBad rfl (by decide) (Or.inl (by decide))⟩

/-- C4: in zero-knowledge mode phase 1 attaches exactly one randomizing
triple `[a, b, a·b]` per (circuit, instance) pair — one triple list per
circuit, one entry per instance — with `a` and `b` two fresh consecutive
draws from the entropy source; with the flag disabled no instance carries
a triple, the entropy source is untouched, and the run is identical to a
non-randomized run with the same witness. -/
theorem randomization_modes {F : Type} [Field F] [DecidableEq F] :
    (∀ (batch : List (Circuit F × List (CInstance F))) (rng : RNG F),
      (sampleRandomizers true batch rng).1.length = batch.length) ∧
    (∀ (batch : List (Circuit F × List (CInstance F))) (rng : RNG F)
      (j : Nat) (hj : j < batch.length),
      ((sampleRandomizers true batch rng).1.getD j []).length =
        (batch.get ⟨j, hj⟩).2.length) ∧
    (∀ (batch : List (Circuit F × List (CInstance F))) (rng : RNG F)
      (j : Nat) (hj : j < batch.length) (k : Nat)
      (hk : k < (batch.get ⟨j, hj⟩).2.length),
      ((sampleRandomizers true batch rng).1.getD j []).getD k none =
        some (rng.stream (rng.pos + 2 * (instancesBefore batch j + k)),
          rng.stream (rng.pos + 2 * (instancesBefore batch j + k) + 1),
          rng.stream (rng.pos + 2 * (instancesBefore batch j + k)) *
            rng.stream (rng.pos + 2 * (instancesBefore batch j + k) + 1))) ∧
    (∀ (batch : List (Circuit F × List (CInstance F))) (rng : RNG F),
      sampleRandomizers false batch rng =
        (batch.map fun p => List.replicate p.2.length none, rng)) ∧
    (∀ (batch : List (Circuit F × List (CInstance F))) (rng : RNG F),
      initProver false batch rng = initProverPlain batch) :=
  ⟨sampleRandomizers_length true, sampleRandomizers_true_getLength,
    sampleRandomizers_true_get, sampleRandomizers_false, initProver_false⟩

/-- Witness for C4 at a concrete two-circuit batch over `F5`. -/
theorem randomization_modes_witness :
    ((sampleRandomizers true exBatch2 exRNG).1.getD 1 []).getD 1 none =
      some (4, 0, 0) ∧
    sampleRandomizers false exBatch2 exRNG =
      ([[none], [none, none]], exRNG) ∧
    initProver false exBatch2 exRNG = initProverPlain exBatch2 := by
  refine ⟨?_, ?_, randomization_modes.2.2.2.2 exBatch2 exRNG⟩
  · have h := randomization_modes.2.2.1 exBatch2 exRNG 1 (by decide) 1
      (by decide)
    exact h.trans (by decide)
  · have h := randomization_modes.2.2.2.1 exBatch2 exRNG
    rw [show exBatch2.map (fun p => List.replicate p.2.length none) =
      [[none], [none, none]] from by decide] at h
    exact h

/-- C5: each entry of `z_A`/`z_B`/`z_C` equals the direct dense
recomputation `Σ coefficient · variable` of its row, with column indices
below `num_public_variables` addressing the public vector and larger
indices addressing the private vector offset by `num_public_variables`;
and the coefficient-equals-identity shortcut produces results identical
to the generic multiply path for every row. -/
theorem z_entries_dense_sum {F : Type} [Field F] [DecidableEq F] :
    (∀ (pub priv : List F) (row : List (F × Nat)) (nPub : Nat),
      innerProduct pub priv row nPub = innerProductGeneric pub priv row nPub) ∧
    (∀ (pub priv : List F) (row : List (F × Nat)) (nPub : Nat),
      pub.length = nPub → (∀ ci ∈ row, ci.2 < nPub + priv.length) →
      innerProduct pub priv row nPub = some (denseSum pub priv nPub row)) ∧
    (∀ (pub priv : List F) (nPub : Nat) (rows : List (List (F × Nat)))
      (z : List F) (k : Nat),
      pub.length = nPub →
      (∀ row ∈ rows, ∀ ci ∈ row, ci.2 < nPub + priv.length) →
      computeZ pub priv nPub rows = some z → k < rows.length →
      z.getD k 0 = denseSum pub priv nPub (rows.getD k [])) :=
  ⟨fun pub priv row nPub => innerProductGo_eq_generic pub priv nPub row 0,
   innerProduct_bounds,
   fun pub priv nPub rows z k hpub hb hz hk =>
     computeZ_getD pub priv nPub hpub rows z hb hz k hk⟩

/-- Witness for C5 at a concrete row over `F5`. -/
theorem z_entries_dense_sum_witness :
    innerProduct (F := F5) [1, 2] [3] [(1, 0), (2, 2)] 2 =
      innerProductGeneric [1, 2] [3] [(1, 0), (2, 2)] 2 ∧
    ([1, 2] : List F5).length = 2 ∧
    innerProduct (F := F5) [1, 2] [3] [(1, 0), (2, 2)] 2 = some 2 ∧
    computeZ (F := F5) [1, 2] [3] 2 [[(1, 0), (2, 2)]] = some [2] ∧
    ([2] : List F5).getD 0 0 =
      denseSum [1, 2] [3] 2 [(1, 0), (2, 2)] := by
  refine ⟨(z_entries_dense_sum (F := F5)).1 [1, 2] [3] [(1, 0), (2, 2)] 2, by decide,
    ?_, by decide, ?_⟩
  · have h := (z_entries_dense_sum (F := F5)).2.1 [1, 2] [3] [(1, 0), (2, 2)] 2
      (by decide) (by decide)
    exact h.trans (by decide)
  · exact (z_entries_dense_sum (F := F5)).2.2 [1, 2] [3] 2 [[(1, 0), (2, 2)]] [2] 0
      (by decide) (by decide) (by decide) (by decide)

/-- C6: determinism — two runs of `init_prover` with identical inputs and
identically seeded entropy sources are bit-identical, and two calls of
`apply_randomized_selector` with identical arguments agree; and the
per-row `z` computations are order-independent: processing the rows in
reverse order yields the reversed result vector, so a fully sequential
schedule and any reordering agree. -/
theorem deterministic_runs {F : Type} [Field F] [DecidableEq F] :
    (∀ (zk : Bool) (batch : List (Circuit F × List (CInstance F)))
      (r1 r2 : RNG F), r1.stream = r2.stream → r1.pos = r2.pos →
      initProver zk batch r1 = initProver zk batch r2) ∧
    (∀ (p1 p2 : List F) (c1 c2 : F) (t1 t2 s1 s2 : EvalDomain)
      (w1 w2 : Bool), p1 = p2 → c1 = c2 → t1 = t2 → s1 = s2 → w1 = w2 →
      applyRandomizedSelector p1 c1 t1 s1 w1 =
        applyRandomizedSelector p2 c2 t2 s2 w2) ∧
    (∀ (pub priv : List F) (nPub : Nat) (rows : List (List (F × Nat))),
      computeZ pub priv nPub rows.reverse =
        (computeZ pub priv nPub rows).map List.reverse) := by
  refine ⟨?_, ?_, computeZ_reverse⟩
  · intro zk batch r1 r2 hs hp
    have hr : r1 = r2 := by
      cases r1
      cases r2
      simp_all
    rw [hr]
  · intro p1 p2 c1 c2 t1 t2 s1 s2 w1 w2 h1 h2 h3 h4 h5
    subst h1
    subst h2
    subst h3
    subst h4
    subst h5
    rfl

/-- Witness for C6 at concrete inputs over `F5`. -/
theorem deterministic_runs_witness :
    exRNG.stream = exRNGb.stream ∧ exRNG.pos = exRNGb.pos ∧
    initProver false exBatch2 exRNG = initProver false exBatch2 exRNGb ∧
    applyRandomizedSelector (F := F5) [1] 1 ⟨4⟩ ⟨2⟩ false =
      applyRandomizedSelector [1] 1 ⟨4⟩ ⟨2⟩ false ∧
    computeZ (F := F5) [1, 2] [3] 2 [[(1, 0)], [(2, 2)]].reverse =
      (computeZ [1, 2] [3] 2 [[(1, 0)], [(2, 2)]]).map List.reverse :=
  ⟨rfl, rfl, deterministic_runs.1 false exBatch2 exRNG exRNGb rfl rfl,
    (deterministic_runs (F := F5)).2.1 [1] [1] 1 1 ⟨4⟩ ⟨4⟩ ⟨2⟩ ⟨2⟩ false false
      rfl rfl rfl rfl rfl,
    (deterministic_runs (F := F5)).2.2 [1, 2] [3] 2 [[(1, 0)], [(2, 2)]]⟩

/-- C7: the entropy draws of `init_prover` happen in a fixed order —
circuits in batch order, then instances in list order, `a` at the even
stream position immediately before `b` — so the instance preceded by
`instancesBefore batch j + k` instances uses positions `2·o` and
`2·o + 1`; and all draws happen in phase 1, before any constraint
generation: the outcome depends on the entropy source only through the
phase-1 samples. -/
theorem entropy_draw_order {F : Type} [Field F] [DecidableEq F] :
    (∀ (batch : List (Circuit F × List (CInstance F))) (rng : RNG F)
      (j : Nat) (hj : j < batch.length) (k : Nat)
      (hk : k < (batch.get ⟨j, hj⟩).2.length),
      ((sampleRandomizers true batch rng).1.getD j []).getD k none =
        some (rng.stream (rng.pos + 2 * (instancesBefore batch j + k)),
          rng.stream (rng.pos + 2 * (instancesBefore batch j + k) + 1),
          rng.stream (rng.pos + 2 * (instancesBefore batch j + k)) *
            rng.stream (rng.pos + 2 * (instancesBefore batch j + k) + 1))) ∧
    (∀ (zk : Bool) (batch : List (Circuit F × List (CInstance F)))
      (r1 r2 : RNG F),
      (sampleRandomizers zk batch r1).1 = (sampleRandomizers zk batch r2).1 →
      initProver zk batch r1 = initProver zk batch r2) := by
  refine ⟨sampleRandomizers_true_get, ?_⟩
  intro zk batch r1 r2 h
  unfold initProver
  rw [h]

/-- Witness for C7 at the second circuit's first instance over `F5`. -/
theorem entropy_draw_order_witness :
    ((sampleRandomizers true exBatch2 exRNG).1.getD 1 []).getD 0 none =
      some (2, 3, 1) ∧
    initProver true exBatch2 exRNG = initProver true exBatch2 exRNGb := by
  constructor
  · have h := entropy_draw_order.1 exBatch2 exRNG 1 (by decide) 0 (by decide)
    exact h.trans (by decide)
  · exact entropy_draw_order.2 true exBatch2 exRNG exRNGb (by decide)

/-- C9: whenever `init_prover` succeeds, entry 0 of every produced padded
public-variable vector in the prover state is the field multiplicative
identity. -/
theorem constant_wire_invariant {F : Type} [Field F] [DecidableEq F]
    (zk : Bool) (batch : List (Circuit F × List (CInstance F)))
    (rng : RNG F) (st : ProverState F) (cd : Circuit F) (ad : Assignments F)
    (j k : Nat) (h : initProver zk batch rng = .ok st)
    (hj : j < st.circuitsAndAssignments.length)
    (hk : k < (st.circuitsAndAssignments.getD j (cd, [])).2.length) :
    ((st.circuitsAndAssignments.getD j (cd, [])).2.getD k
      ad).publicVariables.getD 0 0 = 1 := by
  have hmem1 : st.circuitsAndAssignments.getD j (cd, []) ∈
      st.circuitsAndAssignments := by
    rw [List.getD_eq_getElem _ _ hj]
    exact List.getElem_mem hj
  have hmem2 : (st.circuitsAndAssignments.getD j (cd, [])).2.getD k ad ∈
      (st.circuitsAndAssignments.getD j (cd, [])).2 := by
    rw [List.getD_eq_getElem _ _ hk]
    exact List.getElem_mem hk
  exact initProver_ok_head zk batch rng st h _ hmem1 _ hmem2

/-- Witness for C9 at a concrete successful run over `F5`. -/
theorem constant_wire_invariant_witness :
    initProver false [(exCircuit, [exInstance])] exRNG =
      RunOutcome.ok exState ∧
    0 < exState.circuitsAndAssignments.length ∧
    0 < (exState.circuitsAndAssignments.getD 0 (exCircuit, [])).2.length ∧
    ((exState.circuitsAndAssignments.getD 0 (exCircuit, [])).2.getD 0
      exAsg).publicVariables.getD 0 0 = 1 :=
  ⟨by decide, by decide, by decide,
    constant_wire_invariant false [(exCircuit, [exInstance])] exRNG exState
      exCircuit exAsg 0 0 (by decide) (by decide) (by decide)⟩

/-- C10: under the precondition that every column index of the row is
below `num_public_variables` plus the private-vector length (with the
public vector of length `num_public_variables`), every lookup of
`inner_product` is in bounds and the function is total; a row with an
out-of-range column index makes the unchecked lookup panic — propagated
as a panic, not an error, by the per-instance build. -/
theorem unchecked_indexing_spec {F : Type} [Field F] [DecidableEq F] :
    (∀ (pub priv : List F) (row : List (F × Nat)) (nPub : Nat),
      pub.length = nPub → (∀ ci ∈ row, ci.2 < nPub + priv.length) →
      (innerProduct pub priv row nPub).isSome = true) ∧
    innerProduct (F := F5) [1] [] [(1, 3)] 1 = none ∧
    processInstance false exCircuitOob (Except.ok exSysOob) none =
      RunOutcome.panic := by
  refine ⟨?_, by decide, by decide⟩
  intro pub priv row nPub hpub hb
  rw [innerProduct_bounds pub priv row nPub hpub hb]
  rfl

/-- Witness for C10's totality part at a concrete in-bounds row. -/
theorem unchecked_indexing_spec_witness :
    ([1, 2] : List F5).length = 2 ∧
    (innerProduct (F := F5) [1, 2] [3] [(2, 2)] 2).isSome = true :=
  ⟨by decide,
    (unchecked_indexing_spec (F := F5)).1 [1, 2] [3] [(2, 2)] 2 (by decide) (by decide)⟩

end Theorems
